import Mathlib

/-!
Verification development for the typecomp repository, a multi-project
TypeScript language-service abstraction (src/src/project.ts and
src/src/helpers.ts).

Each of the two source files contains two revisions of its classes, one
after the other.  The first revision of the in-memory language-service
host (project.ts, lines 75 to 213) keeps an aggregate project version and
skips re-tracking of unchanged files; the second revision (lines 278 to
411) has a throwing constructor and no unchanged-file check.  They are
embedded below under the namespaces V1 and V2 respectively.  The routing
facade getRoot and Workspace (helpers.ts) is embedded at top level.

External collaborators (Node path module, the crypto hash, the tsconfig
locator, the TypeScript analysis engine) are modelled from the interface
boundary given in the specification, sections 4.1 and 6.
-/

deriving instance DecidableEq for Except

/-! ## Paths (model of the Node path module, external to the repository) -/

/-- Splitting a list of characters at every slash, the character-level body
of splitPath.  Mirrors the semantics of splitting a string on the
separator: the empty input yields one empty component. -/
def splitChars : List Char → List String
  | [] => [""]
  | c :: rest =>
    let parts := splitChars rest
    if c == '/' then "" :: parts
    else
      match parts with
      | [] => [String.mk [c]]
      | p :: ps => String.mk (c :: p.toList) :: ps

/-- Components of a path, split on the slash separator. -/
def splitPath (p : String) : List String :=
  splitChars p.data

/-- Joining path components with the slash separator. -/
def joinPath : List String → String
  | [] => ""
  | [p] => p
  | p :: rest => p ++ "/" ++ joinPath rest

/-- Modelled from the spec: path.dirname of the Node path module — the path
without its final component. -/
def dirname (p : String) : String :=
  joinPath (splitPath p).dropLast

/-- Modelled from the spec: path.basename of the Node path module — the
final component of the path. -/
def basename (p : String) : String :=
  ((splitPath p).getLast?).getD ""

/-- The suffix of a character list starting at its last dot, if any. -/
def afterLastDot : List Char → Option (List Char)
  | [] => none
  | c :: rest =>
    match afterLastDot rest with
    | some s => some s
    | none => if c == '.' then some (c :: rest) else none

/-- Modelled from the spec: path.extname of the Node path module — the
extension of the final path component, beginning at its last dot.  A dot
that starts the component does not begin an extension. -/
def extname (p : String) : String :=
  match (basename p).toList with
  | [] => ""
  | _ :: rest =>
    match afterLastDot rest with
    | some s => String.mk s
    | none => ""

/-- Modelled from the spec, section 6: all paths accepted are
relative-or-absolute text resolved against the current working directory
before lookup (path.resolve of the Node path module, without dot-segment
normalization, which the sources never rely on). -/
def resolvePath (cwd filename : String) : String :=
  match filename.data with
  | '/' :: _ => filename
  | _ => cwd ++ "/" ++ filename

/-! ## Content hash (model of the external crypto md5 digest) -/

/-- Modelled from the spec: the content hash used for file versions (the
source delegates to the crypto module md5 digest).  Section 3 requires a
version deterministically derived from the text, equal for equal content
and different for different content; the hash is modelled as an injective
tagged encoding realizing exactly that contract. -/
def md5 (input : String) : String :=
  "(" ++ input ++ ")"

/-! ## Insertion-ordered string maps (model of the JavaScript Map class)

A JavaScript Map iterates in insertion order; set on a present key updates
the value in place, set on an absent key appends, delete removes the
(unique) entry for the key. -/

/-- Lookup for the first entry with the given key. -/
def mapGet {α : Type} : List (String × α) → String → Option α
  | [], _ => none
  | (k2, v) :: rest, k => if k2 == k then some v else mapGet rest k

/-- Update in place when the key is present, append when absent. -/
def mapSet {α : Type} : List (String × α) → String → α → List (String × α)
  | [], k, v => [(k, v)]
  | (k2, v2) :: rest, k, v =>
    if k2 == k then (k, v) :: rest else (k2, v2) :: mapSet rest k v

/-- Removal of the first entry with the given key. -/
def mapDelete {α : Type} : List (String × α) → String → List (String × α)
  | [], _ => []
  | (k2, v2) :: rest, k =>
    if k2 == k then rest else (k2, v2) :: mapDelete rest k

/-- The keys of the map, in insertion order. -/
def mapKeys {α : Type} (m : List (String × α)) : List String :=
  m.map Prod.fst

/-! ## External collaborators and shared data model -/

/-- Compiler options are treated by this core as an opaque blob passed
through to the analysis engine (spec, section 6). -/
structure CompilerOptions where
  raw : String
deriving DecidableEq

/-- Modelled from the spec, section 6: the consumed external collaborators
— the synchronous filesystem readFile (none models a read failure, which
the source surfaces as a thrown exception), the directory probe used by
the external tsconfig locator (does this directory hold a tsconfig.json
marker), and the configuration parser (none models configuration text
that does not parse into valid options). -/
structure Env where
  contents : String → Option String
  hasConfig : String → Bool
  parseConfig : String → Option CompilerOptions

/-- An immutable captured view of the text of a file
(TS.IScriptSnapshot). -/
structure IScriptSnapshot where
  text : String
deriving DecidableEq

/-- TS.ScriptSnapshot.fromString: capturing a text into a snapshot. -/
def scriptSnapshotFromString (text : String) : IScriptSnapshot :=
  ⟨text⟩

/-- TS.ScriptKind, restricted to the values the source mentions. -/
inductive ScriptKind where
  | Unknown
  | JS
  | JSX
  | TS
  | TSX
deriving DecidableEq

/-- The per-file record held by the host: content version, captured
snapshot and script kind (interface ScriptInfo of project.ts). -/
structure ScriptInfo where
  version : String
  snapshot : IScriptSnapshot
  kind : ScriptKind
deriving DecidableEq

/-- The errors the sources can signal (spec, section 7): an unreadable
file, a file with no configuration in its ancestor chain (thrown by
Workspace.projectFor), a root directory with no configuration (thrown by
the second-revision host constructor) and configuration text that does not
parse (MalformedConfiguration). -/
inductive Err where
  | fileUnreadable (path : String)
  | noConfiguration (filename : String)
  | noConfigurationAt (cwd : String)
  | malformedConfiguration (path : String)
deriving DecidableEq

/-- One engine diagnostic: category, message and source-position range
(spec, section 6). -/
structure Diagnostic where
  category : Nat
  message : String
  start : Nat
  length : Nat
deriving DecidableEq

/-- One emitted output file, an opaque name and text pair (spec,
section 4.4). -/
structure Output where
  name : String
  text : String
deriving DecidableEq

/-- Modelled from the spec, section 6: the external analysis engine,
queried for syntactic diagnostics, semantic diagnostics and emitted
output.  The engine pulls all of its input from the host, so its answers
are modelled as deterministic functions of the host state and the queried
file. -/
structure Engine (σ : Type) where
  syntacticDiagnostics : σ → String → List Diagnostic
  semanticDiagnostics : σ → String → List Diagnostic
  emitOutput : σ → String → List Output

/-! ## Locator (model of the external tsconfig.findSync) -/

/-- Upward walk over reversed path components: probe the directory they
form, then its parent.  The components arrive deepest-first. -/
def findSyncRev (env : Env) : List String → Option String
  | [] => none
  | part :: rest =>
    let dir := joinPath (part :: rest).reverse
    if env.hasConfig dir then some (dir ++ "/tsconfig.json")
    else findSyncRev env rest

/-- Modelled from the spec, section 4.1: the external locator started at a
directory — probe that directory, then each ancestor, for the
configuration marker, returning the marker path of the nearest hit. -/
def findSyncDir (env : Env) (dir : String) : Option String :=
  findSyncRev env (splitPath dir).reverse

/-- Modelled from the spec, section 4.1: the external locator started at a
file — the walk begins at the containing directory of the file. -/
def findSync (env : Env) (filename : String) : Option String :=
  findSyncRev env ((splitPath filename).dropLast).reverse

/-- getRoot of helpers.ts: the directory of the nearest configuration
marker for the file, or none. -/
def getRoot (env : Env) (filename : String) : Option String :=
  match findSync env filename with
  | some config => some (dirname config)
  | none => none

/-! ## The extension switch of addFile

Both revisions of addFile classify the script kind with a switch on the
file extension that contains no break statements, so a matched case runs
its own assignment and then falls through every later case body.  The
fallthrough is encoded with an explicit flag: a case fires when an earlier
case already matched or its own label matches. -/

/-- One case of the switch: run the body when falling through or when the
label matches, and keep falling afterwards. -/
def switchCase (ext label : String) (body : ScriptKind) :
    ScriptKind × Bool → ScriptKind × Bool
  | (kind, fall) => if fall || ext == label then (body, true) else (kind, fall)

/-- The whole switch of addFile: kind starts as Unknown, the four cases
are tried in source order. -/
def scriptKindOf (fileName : String) : ScriptKind :=
  let ext := extname fileName
  (switchCase ext ".tsx" ScriptKind.TSX
    (switchCase ext ".ts" ScriptKind.TS
      (switchCase ext ".jsx" ScriptKind.JSX
        (switchCase ext ".js" ScriptKind.JS
          (ScriptKind.Unknown, false))))).1

/-! ## First revision of the host and project (project.ts, lines 12 to 213)

The host owns the tracked-file map, the compiler options computed at
construction, and the aggregate project version, a running hash chain
updated on every tracked change. -/

/-- State of the first-revision InMemoryLanguageServiceHost: the tracked
files in insertion order, the options, and the aggregate version. -/
structure V1.Host where
  files : List (String × ScriptInfo)
  options : CompilerOptions
  version : String
deriving DecidableEq

/-- getProjectVersion: the current aggregate version. -/
def V1.Host.getProjectVersion (h : V1.Host) : String :=
  h.version

/-- getScriptFileNames: the tracked paths, in insertion order. -/
def V1.Host.getScriptFileNames (h : V1.Host) : List String :=
  mapKeys h.files

/-- The body of addFile after the early unchanged-version return: build the
snapshot, extend the aggregate version chain, classify the kind, store the
whole new record under the path. -/
def V1.Host.addFresh (h : V1.Host) (fileName text version : String) :
    V1.Host × Except Err ScriptInfo :=
  let snapshot := scriptSnapshotFromString text
  let chained := md5 (h.version ++ version)
  let kind := scriptKindOf fileName
  let file : ScriptInfo := ⟨version, snapshot, kind⟩
  ({ h with files := mapSet h.files fileName file, version := chained },
   Except.ok file)

/-- addFile of the first-revision host: read the file (a failed read
surfaces as an error and leaves the state untouched), hash the text, and
return the held record unchanged when its version already matches;
otherwise run the fresh-tracking body. -/
def V1.Host.addFile (env : Env) (h : V1.Host) (fileName : String) :
    V1.Host × Except Err ScriptInfo :=
  match env.contents fileName with
  | none => (h, Except.error (Err.fileUnreadable fileName))
  | some text =>
    let version := md5 text
    match mapGet h.files fileName with
    | some current =>
      if current.version == version then (h, Except.ok current)
      else V1.Host.addFresh h fileName text version
    | none => V1.Host.addFresh h fileName text version

/-- removeFile: delete the record for the path.  The aggregate version is
not touched by the source. -/
def V1.Host.removeFile (h : V1.Host) (fileName : String) : V1.Host :=
  { h with files := mapDelete h.files fileName }

/-- getScriptVersion: answer from the map, or implicitly track the file on
first access. -/
def V1.Host.getScriptVersion (env : Env) (h : V1.Host) (fileName : String) :
    V1.Host × Except Err String :=
  match mapGet h.files fileName with
  | some info => (h, Except.ok info.version)
  | none =>
    match V1.Host.addFile env h fileName with
    | (h2, Except.ok info) => (h2, Except.ok info.version)
    | (h2, Except.error e) => (h2, Except.error e)

/-- getScriptSnapshot: answer from the map, or implicitly track the file on
first access. -/
def V1.Host.getScriptSnapshot (env : Env) (h : V1.Host) (fileName : String) :
    V1.Host × Except Err IScriptSnapshot :=
  match mapGet h.files fileName with
  | some info => (h, Except.ok info.snapshot)
  | none =>
    match V1.Host.addFile env h fileName with
    | (h2, Except.ok info) => (h2, Except.ok info.snapshot)
    | (h2, Except.error e) => (h2, Except.error e)

/-- getScriptKind: answer from the map, or implicitly track the file on
first access. -/
def V1.Host.getScriptKind (env : Env) (h : V1.Host) (fileName : String) :
    V1.Host × Except Err ScriptKind :=
  match mapGet h.files fileName with
  | some info => (h, Except.ok info.kind)
  | none =>
    match V1.Host.addFile env h fileName with
    | (h2, Except.ok info) => (h2, Except.ok info.kind)
    | (h2, Except.error e) => (h2, Except.error e)

/-- A first-revision Project: it owns its host (the language service it
also owns is the external engine, passed to the operations below). -/
structure V1.Project where
  host : V1.Host
deriving DecidableEq

/-- diagnose of the first-revision Project: resolve the filename, track it
through the host, then concatenate the syntactic diagnostics of the engine
with its semantic diagnostics, in that order. -/
def V1.Project.diagnose (env : Env) (eng : Engine V1.Host) (cwd : String)
    (p : V1.Project) (filename : String) :
    V1.Project × Except Err (List Diagnostic) :=
  match V1.Host.addFile env p.host (resolvePath cwd filename) with
  | (h2, Except.error e) => (⟨h2⟩, Except.error e)
  | (h2, Except.ok _) =>
    (⟨h2⟩,
     Except.ok (eng.syntacticDiagnostics h2 (resolvePath cwd filename)
       ++ eng.semanticDiagnostics h2 (resolvePath cwd filename)))

/-- compile of the first-revision Project: resolve the filename, track it
through the host, then return the emitted output of the engine as is. -/
def V1.Project.compile (env : Env) (eng : Engine V1.Host) (cwd : String)
    (p : V1.Project) (filename : String) :
    V1.Project × Except Err (List Output) :=
  match V1.Host.addFile env p.host (resolvePath cwd filename) with
  | (h2, Except.error e) => (⟨h2⟩, Except.error e)
  | (h2, Except.ok _) =>
    (⟨h2⟩, Except.ok (eng.emitOutput h2 (resolvePath cwd filename)))

/-- One host mutation: track is addFile, untrack is removeFile. -/
inductive HostOp where
  | track (p : String)
  | untrack (p : String)

/-- Running a sequence of track and untrack operations against the
first-revision host. -/
def V1.Host.runOps (env : Env) (h : V1.Host) : List HostOp → V1.Host
  | [] => h
  | HostOp.track p :: rest => V1.Host.runOps env (V1.Host.addFile env h p).1 rest
  | HostOp.untrack p :: rest => V1.Host.runOps env (V1.Host.removeFile h p) rest

/-- The snapshot-version consistency invariant of the spec, section 3:
every tracked entry carries the hash of exactly the text captured in its
snapshot. -/
def V1.Host.WF (h : V1.Host) : Prop :=
  ∀ e ∈ h.files, e.2.version = md5 e.2.snapshot.text

/-! ## Second revision of the host and project (project.ts, lines 226 to 411)

This revision resolves the configuration in the constructor and throws
when the given directory has no configuration; it keeps no aggregate
version and re-tracks a file unconditionally. -/

/-- State of the second-revision InMemoryLanguageServiceHost. -/
structure V2.Host where
  files : List (String × ScriptInfo)
  options : CompilerOptions
  root : String
deriving DecidableEq

/-- The second-revision host constructor: locate the configuration from
the given directory (throwing when there is none), read it (a failed read
surfaces as an error), parse it (configuration text that does not parse is
fatal), and start with no tracked files. -/
def V2.Host.construct (env : Env) (cwd : String) : Except Err V2.Host :=
  match findSyncDir env cwd with
  | none => Except.error (Err.noConfigurationAt cwd)
  | some configPath =>
    match env.contents configPath with
    | none => Except.error (Err.fileUnreadable configPath)
    | some text =>
      match env.parseConfig text with
      | none => Except.error (Err.malformedConfiguration configPath)
      | some options => Except.ok ⟨[], options, dirname configPath⟩

/-- addFile of the second-revision host: read, snapshot, hash, classify,
and store unconditionally. -/
def V2.Host.addFile (env : Env) (h : V2.Host) (fileName : String) :
    V2.Host × Except Err ScriptInfo :=
  match env.contents fileName with
  | none => (h, Except.error (Err.fileUnreadable fileName))
  | some text =>
    let snapshot := scriptSnapshotFromString text
    let version := md5 text
    let kind := scriptKindOf fileName
    let file : ScriptInfo := ⟨version, snapshot, kind⟩
    ({ h with files := mapSet h.files fileName file }, Except.ok file)

/-- A second-revision Project owns its host.  JavaScript object identity
of Session instances, which the routing properties of the spec speak
about, is modelled by an identity tag given out at construction. -/
structure V2.Project where
  id : Nat
  host : V2.Host
deriving DecidableEq

/-- Session construction: new Project(root, registry) builds the host from
the root, and a host construction failure propagates to the caller. -/
def V2.Project.construct (env : Env) (id : Nat) (root : String) :
    Except Err V2.Project :=
  match V2.Host.construct env root with
  | Except.error e => Except.error e
  | Except.ok host => Except.ok ⟨id, host⟩

/-- diagnose of the second-revision Project: resolve, track, then
syntactic diagnostics followed by semantic diagnostics. -/
def V2.Project.diagnose (env : Env) (eng : Engine V2.Host) (cwd : String)
    (p : V2.Project) (filename : String) :
    V2.Project × Except Err (List Diagnostic) :=
  match V2.Host.addFile env p.host (resolvePath cwd filename) with
  | (h2, Except.error e) => ({ p with host := h2 }, Except.error e)
  | (h2, Except.ok _) =>
    ({ p with host := h2 },
     Except.ok (eng.syntacticDiagnostics h2 (resolvePath cwd filename)
       ++ eng.semanticDiagnostics h2 (resolvePath cwd filename)))

/-- compile of the second-revision Project: resolve, track, then the
emitted output of the engine as is. -/
def V2.Project.compile (env : Env) (eng : Engine V2.Host) (cwd : String)
    (p : V2.Project) (filename : String) :
    V2.Project × Except Err (List Output) :=
  match V2.Host.addFile env p.host (resolvePath cwd filename) with
  | (h2, Except.error e) => ({ p with host := h2 }, Except.error e)
  | (h2, Except.ok _) =>
    ({ p with host := h2 }, Except.ok (eng.emitOutput h2 (resolvePath cwd filename)))

/-! ## Workspace (helpers.ts) -/

/-- The shared document registry: created once per Workspace with
TS.createDocumentRegistry(false, cwd) and passed to every Session; its
internals belong to the external engine. -/
structure Registry where
  useCaseSensitiveFileNames : Bool
  currentDirectory : String
deriving DecidableEq

/-- The Workspace facade: the root-to-Session map, the shared registry,
and the next identity tag handed to a constructed Session (the model of
JavaScript object identity). -/
structure Workspace where
  projects : List (String × V2.Project)
  registry : Registry
  nextId : Nat
deriving DecidableEq

/-- projectFor of helpers.ts: resolve the owning root of the file with
getRoot (throwing when there is none), reuse the Session registered for
the root, and otherwise construct one and register it under the root.  A
construction failure propagates before any registration happens. -/
def Workspace.projectFor (env : Env) (w : Workspace) (filename : String) :
    Workspace × Except Err V2.Project :=
  match getRoot env filename with
  | none => (w, Except.error (Err.noConfiguration filename))
  | some root =>
    match mapGet w.projects root with
    | some project => (w, Except.ok project)
    | none =>
      match V2.Project.construct env w.nextId root with
      | Except.error e => (w, Except.error e)
      | Except.ok project =>
        ({ w with projects := mapSet w.projects root project,
                  nextId := w.nextId + 1 },
         Except.ok project)

/-- diagnose of the Workspace: thin delegation to the resolved Session.
The source mutates the Session aliased from the map in place; the model
writes the updated Session back under its root. -/
def Workspace.diagnose (env : Env) (eng : Engine V2.Host) (cwd : String)
    (w : Workspace) (filename : String) :
    Workspace × Except Err (List Diagnostic) :=
  match Workspace.projectFor env w filename with
  | (w2, Except.error e) => (w2, Except.error e)
  | (w2, Except.ok project) =>
    let (p2, r) := V2.Project.diagnose env eng cwd project filename
    ({ w2 with projects := mapSet w2.projects p2.host.root p2 }, r)

/-- compile of the Workspace: thin delegation to the resolved Session. -/
def Workspace.compile (env : Env) (eng : Engine V2.Host) (cwd : String)
    (w : Workspace) (filename : String) :
    Workspace × Except Err (List Output) :=
  match Workspace.projectFor env w filename with
  | (w2, Except.error e) => (w2, Except.error e)
  | (w2, Except.ok project) =>
    let (p2, r) := V2.Project.compile env eng cwd project filename
    ({ w2 with projects := mapSet w2.projects p2.host.root p2 }, r)

/-! ## A concrete external world, for instantiating the theorems -/

/-- A concrete external world: one well formed root directory at /p
(configuration text cfg), one root at /m whose configuration text nope
does not parse, a few readable sources under /p, everything else
unreadable. -/
def envA : Env where
  contents := fun p =>
    if p == "/p/tsconfig.json" then some "cfg"
    else if p == "/m/tsconfig.json" then some "nope"
    else if p == "/p/a.ts" then some "const x = 0;"
    else if p == "/p/b.ts" then some "let y = 1;"
    else if p == "/p/c.txt" then some "plain text"
    else none
  hasConfig := fun d => d == "/p" || d == "/m"
  parseConfig := fun t => if t == "nope" then none else some ⟨t⟩

/-- A freshly constructed first-revision host for the root /p. -/
def hostA : V1.Host :=
  ⟨[], ⟨"cfg"⟩, ""⟩

/-- A first-revision Project holding that host. -/
def projV1A : V1.Project :=
  ⟨hostA⟩

/-- A concrete engine over first-revision hosts, with one syntactic and
one semantic diagnostic for every query. -/
def engA : Engine V1.Host where
  syntacticDiagnostics := fun _ _ => [⟨1, "syn", 0, 1⟩]
  semanticDiagnostics := fun _ _ => [⟨2, "sem", 2, 3⟩]
  emitOutput := fun _ fn => [⟨fn, "out"⟩]

/-- A concrete engine over second-revision hosts. -/
def eng2A : Engine V2.Host where
  syntacticDiagnostics := fun _ _ => [⟨1, "syn", 0, 1⟩]
  semanticDiagnostics := fun _ _ => [⟨2, "sem", 2, 3⟩]
  emitOutput := fun _ fn => [⟨fn, "out"⟩]

/-- The registry of a fresh Workspace with working directory at the
filesystem root. -/
def reg0 : Registry :=
  ⟨false, "/"⟩

/-- A fresh Workspace. -/
def w0 : Workspace :=
  ⟨[], reg0, 0⟩

/-- The second-revision host the Workspace builds for the root /p of the
concrete world. -/
def host2A : V2.Host :=
  ⟨[], ⟨"cfg"⟩, "/p"⟩

/-- The Session the Workspace constructs and registers for /p. -/
def projA : V2.Project :=
  ⟨0, host2A⟩

/-- The Workspace after its first call for a file under /p. -/
def wsA1 : Workspace :=
  ⟨[("/p", projA)], reg0, 1⟩

/-- The concrete world after the configuration under /m has been fixed:
same files, but every configuration text now parses. -/
def envB : Env where
  contents := envA.contents
  hasConfig := envA.hasConfig
  parseConfig := fun t => some ⟨t⟩

/-- The Session a retry constructs for /m against the fixed world. -/
def projM : V2.Project :=
  ⟨1, ⟨[], ⟨"nope"⟩, "/m"⟩⟩

/-! ## Lemmas about the map model -/

theorem mapGet_mapSet_self {α : Type} (m : List (String × α)) (k : String) (v : α) :
    mapGet (mapSet m k v) k = some v := by
  induction m with
  | nil => simp [mapGet, mapSet]
  | cons e rest ih =>
    obtain ⟨k2, v2⟩ := e
    cases hk : k2 == k <;> simp [mapSet, hk, mapGet, ih]

theorem mem_mapSet {α : Type} (m : List (String × α)) (k : String) (v : α)
    (e : String × α) (he : e ∈ mapSet m k v) : e = (k, v) ∨ e ∈ m := by
  induction m with
  | nil => simp [mapSet] at he; simp [he]
  | cons e2 rest ih =>
    obtain ⟨k2, v2⟩ := e2
    cases hk : k2 == k
    · simp only [mapSet, hk, Bool.false_eq_true, if_false, List.mem_cons] at he
      rcases he with he | he
      · exact Or.inr (by simp [he])
      · rcases ih he with he | he
        · exact Or.inl he
        · exact Or.inr (by simp [he])
    · simp only [mapSet, hk, if_true, List.mem_cons] at he
      rcases he with he | he
      · exact Or.inl he
      · exact Or.inr (by simp [he])

theorem mem_mapDelete {α : Type} (m : List (String × α)) (k : String)
    (e : String × α) (he : e ∈ mapDelete m k) : e ∈ m := by
  induction m with
  | nil => simp [mapDelete] at he
  | cons e2 rest ih =>
    obtain ⟨k2, v2⟩ := e2
    cases hk : k2 == k
    · simp only [mapDelete, hk, Bool.false_eq_true, if_false, List.mem_cons] at he
      rcases he with he | he
      · simp [he]
      · exact List.mem_cons_of_mem _ (ih he)
    · simp only [mapDelete, hk, if_true] at he
      exact List.mem_cons_of_mem _ he

theorem mem_mapKeys_mapSet {α : Type} (m : List (String × α)) (k : String) (v : α) :
    k ∈ mapKeys (mapSet m k v) := by
  induction m with
  | nil => simp [mapSet, mapKeys]
  | cons e rest ih =>
    obtain ⟨k2, v2⟩ := e
    cases hk : k2 == k
    · simp only [mapSet, hk, Bool.false_eq_true, if_false, mapKeys, List.map_cons,
        List.mem_cons]
      exact Or.inr (by simpa [mapKeys] using ih)
    · simp [mapSet, hk, mapKeys]

theorem mem_mapKeys_of_mapGet {α : Type} (m : List (String × α)) (k : String)
    (v : α) (hg : mapGet m k = some v) : k ∈ mapKeys m := by
  induction m with
  | nil => simp [mapGet] at hg
  | cons e rest ih =>
    obtain ⟨k2, v2⟩ := e
    cases hk : k2 == k
    · simp only [mapGet, hk, Bool.false_eq_true, if_false] at hg
      exact List.mem_cons_of_mem _ (ih hg)
    · have : k2 = k := by simpa using hk
      simp [mapKeys, this]

/-! ## Lemmas about the hash model and the extension switch -/

theorem md5_append_ne (s t : String) : md5 (s ++ t) ≠ s := by
  intro heq
  have hlen : (md5 (s ++ t)).length = s.length := by rw [heq]
  have hopen : ("(" : String).length = 1 := rfl
  have hclose : (")" : String).length = 1 := rfl
  simp only [md5, String.length_append, hopen, hclose] at hlen
  omega

theorem scriptKindOf_eq (fileName : String) :
    scriptKindOf fileName =
      if extname fileName == ".js" || extname fileName == ".jsx"
          || extname fileName == ".ts" || extname fileName == ".tsx" then
        ScriptKind.TSX
      else ScriptKind.Unknown := by
  cases h1 : extname fileName == ".js" <;>
    cases h2 : extname fileName == ".jsx" <;>
      cases h3 : extname fileName == ".ts" <;>
        cases h4 : extname fileName == ".tsx" <;>
          simp [scriptKindOf, switchCase, h1, h2, h3, h4]

/-! ## Lemmas about addFile of the first-revision host -/

theorem V1.addFile_err (env : Env) (h : V1.Host) (fileName : String)
    (hread : env.contents fileName = none) :
    V1.Host.addFile env h fileName
      = (h, Except.error (Err.fileUnreadable fileName)) := by
  simp [V1.Host.addFile, hread]

theorem V1.addFile_noop (env : Env) (h : V1.Host) (fileName text : String)
    (c : ScriptInfo) (hread : env.contents fileName = some text)
    (hcur : mapGet h.files fileName = some c)
    (hver : c.version = md5 text) :
    V1.Host.addFile env h fileName = (h, Except.ok c) := by
  simp [V1.Host.addFile, hread, hcur, hver]

theorem V1.addFile_changed (env : Env) (h : V1.Host) (fileName text : String)
    (c : ScriptInfo) (hread : env.contents fileName = some text)
    (hcur : mapGet h.files fileName = some c)
    (hver : c.version ≠ md5 text) :
    V1.Host.addFile env h fileName = V1.Host.addFresh h fileName text (md5 text) := by
  have hb : (c.version == md5 text) = false := by simp [hver]
  simp [V1.Host.addFile, hread, hcur, hb]

theorem V1.addFile_new (env : Env) (h : V1.Host) (fileName text : String)
    (hread : env.contents fileName = some text)
    (hnew : mapGet h.files fileName = none) :
    V1.Host.addFile env h fileName = V1.Host.addFresh h fileName text (md5 text) := by
  simp [V1.Host.addFile, hread, hnew]

theorem V1.addFresh_eq (h : V1.Host) (fileName text version : String) :
    V1.Host.addFresh h fileName text version =
      ({ files := mapSet h.files fileName ⟨version, ⟨text⟩, scriptKindOf fileName⟩,
         options := h.options,
         version := md5 (h.version ++ version) },
       Except.ok ⟨version, ⟨text⟩, scriptKindOf fileName⟩) := rfl

theorem V1.addFile_ok (env : Env) (h : V1.Host) (fileName text : String)
    (hread : env.contents fileName = some text) :
    ∃ info : ScriptInfo,
      V1.Host.addFile env h fileName
          = ((V1.Host.addFile env h fileName).1, Except.ok info) ∧
      mapGet (V1.Host.addFile env h fileName).1.files fileName = some info ∧
      info.version = md5 text := by
  cases hcur : mapGet h.files fileName with
  | none =>
    rw [V1.addFile_new env h fileName text hread hcur, V1.addFresh_eq]
    exact ⟨_, rfl, mapGet_mapSet_self _ _ _, rfl⟩
  | some c =>
    by_cases hver : c.version = md5 text
    · rw [V1.addFile_noop env h fileName text c hread hcur hver]
      exact ⟨c, rfl, hcur, hver⟩
    · rw [V1.addFile_changed env h fileName text c hread hcur hver, V1.addFresh_eq]
      exact ⟨_, rfl, mapGet_mapSet_self _ _ _, rfl⟩

theorem V1.addFile_stable (env : Env) (h : V1.Host) (fileName text : String)
    (hread : env.contents fileName = some text) :
    ∃ info : ScriptInfo,
      V1.Host.addFile env h fileName
          = ((V1.Host.addFile env h fileName).1, Except.ok info) ∧
      V1.Host.addFile env (V1.Host.addFile env h fileName).1 fileName
          = ((V1.Host.addFile env h fileName).1, Except.ok info) := by
  obtain ⟨info, he, hm, hv⟩ := V1.addFile_ok env h fileName text hread
  exact ⟨info, he, V1.addFile_noop env _ fileName text info hread hm hv⟩

theorem V1.wf_addFresh (h : V1.Host) (fileName text : String)
    (hwf : V1.Host.WF h) :
    V1.Host.WF (V1.Host.addFresh h fileName text (md5 text)).1 := by
  intro e he
  rw [V1.addFresh_eq] at he
  rcases mem_mapSet _ _ _ _ he with heq | hmem
  · subst heq; rfl
  · exact hwf _ hmem

theorem V1.wf_addFile (env : Env) (h : V1.Host) (fileName : String)
    (hwf : V1.Host.WF h) : V1.Host.WF (V1.Host.addFile env h fileName).1 := by
  cases hread : env.contents fileName with
  | none =>
    rw [V1.addFile_err env h fileName hread]
    exact hwf
  | some text =>
    cases hcur : mapGet h.files fileName with
    | none =>
      rw [V1.addFile_new env h fileName text hread hcur]
      exact V1.wf_addFresh h fileName text hwf
    | some c =>
      by_cases hver : c.version = md5 text
      · rw [V1.addFile_noop env h fileName text c hread hcur hver]
        exact hwf
      · rw [V1.addFile_changed env h fileName text c hread hcur hver]
        exact V1.wf_addFresh h fileName text hwf

theorem V1.wf_removeFile (h : V1.Host) (fileName : String)
    (hwf : V1.Host.WF h) : V1.Host.WF (V1.Host.removeFile h fileName) := by
  intro e he
  exact hwf _ (mem_mapDelete _ _ _ he)

theorem V1.diagnose_eq (env : Env) (eng : Engine V1.Host) (cwd : String)
    (p : V1.Project) (filename : String) (h2 : V1.Host) (info : ScriptInfo)
    (ha : V1.Host.addFile env p.host (resolvePath cwd filename)
        = (h2, Except.ok info)) :
    V1.Project.diagnose env eng cwd p filename
      = (⟨h2⟩, Except.ok (eng.syntacticDiagnostics h2 (resolvePath cwd filename)
          ++ eng.semanticDiagnostics h2 (resolvePath cwd filename))) := by
  unfold V1.Project.diagnose
  rw [ha]

theorem V1.diagnose_err (env : Env) (eng : Engine V1.Host) (cwd : String)
    (p : V1.Project) (filename : String) (e : Err)
    (ha : V1.Host.addFile env p.host (resolvePath cwd filename)
        = (p.host, Except.error e)) :
    V1.Project.diagnose env eng cwd p filename = (p, Except.error e) := by
  unfold V1.Project.diagnose
  rw [ha]

theorem V1.compile_err (env : Env) (eng : Engine V1.Host) (cwd : String)
    (p : V1.Project) (filename : String) (e : Err)
    (ha : V1.Host.addFile env p.host (resolvePath cwd filename)
        = (p.host, Except.error e)) :
    V1.Project.compile env eng cwd p filename = (p, Except.error e) := by
  unfold V1.Project.compile
  rw [ha]

/-! ## Lemmas about the Workspace -/

theorem projectFor_registered (env : Env) (w w1 : Workspace) (a root : String)
    (pa : V2.Project) (ha : getRoot env a = some root)
    (h1 : Workspace.projectFor env w a = (w1, Except.ok pa)) :
    mapGet w1.projects root = some pa := by
  simp only [Workspace.projectFor, ha] at h1
  cases hc : mapGet w.projects root with
  | some p =>
    simp only [hc, Prod.mk.injEq, Except.ok.injEq] at h1
    obtain ⟨rfl, rfl⟩ := h1
    exact hc
  | none =>
    simp only [hc] at h1
    cases hcon : V2.Project.construct env w.nextId root with
    | error e => simp [hcon] at h1
    | ok p =>
      simp only [hcon, Prod.mk.injEq, Except.ok.injEq] at h1
      obtain ⟨rfl, rfl⟩ := h1
      exact mapGet_mapSet_self _ _ _

/-! ## Claim theorems -/

/-- C1: Idempotent tracking.  When the on-disk content of a path is
unchanged between two consecutive addFile calls on the first-revision
host, both calls yield the same version record, and the second call is a
no-op: it returns exactly the state produced by the first call, so it
constructs no new snapshot, replaces no stored record, and leaves the
aggregate project version untouched. -/
theorem track_idempotent (env : Env) (h : V1.Host) (fileName text : String)
    (hread : env.contents fileName = some text) :
    ∃ info : ScriptInfo,
      V1.Host.addFile env h fileName
          = ((V1.Host.addFile env h fileName).1, Except.ok info) ∧
      V1.Host.addFile env (V1.Host.addFile env h fileName).1 fileName
          = ((V1.Host.addFile env h fileName).1, Except.ok info) :=
  V1.addFile_stable env h fileName text hread

theorem track_idempotent_witness :
    ∃ info : ScriptInfo,
      V1.Host.addFile envA hostA "/p/a.ts"
          = ((V1.Host.addFile envA hostA "/p/a.ts").1, Except.ok info) ∧
      V1.Host.addFile envA (V1.Host.addFile envA hostA "/p/a.ts").1 "/p/a.ts"
          = ((V1.Host.addFile envA hostA "/p/a.ts").1, Except.ok info) :=
  track_idempotent envA hostA "/p/a.ts" "const x = 0;" (by decide)

/-- C3: Diagnostic ordering.  diagnose first tracks the resolved file
through the host, then returns exactly the syntactic diagnostics of the
engine concatenated with its semantic diagnostics, in that order, with
nothing added, removed or reordered; and a repeated call on unchanged
input returns the identical sequence and state. -/
theorem diagnose_ordering (env : Env) (eng : Engine V1.Host) (cwd : String)
    (p : V1.Project) (filename text : String)
    (hread : env.contents (resolvePath cwd filename) = some text) :
    ∃ h2 : V1.Host,
      h2 = (V1.Host.addFile env p.host (resolvePath cwd filename)).1 ∧
      resolvePath cwd filename ∈ V1.Host.getScriptFileNames h2 ∧
      V1.Project.diagnose env eng cwd p filename
        = (⟨h2⟩, Except.ok (eng.syntacticDiagnostics h2 (resolvePath cwd filename)
            ++ eng.semanticDiagnostics h2 (resolvePath cwd filename))) ∧
      V1.Project.diagnose env eng cwd ⟨h2⟩ filename
        = (⟨h2⟩, Except.ok (eng.syntacticDiagnostics h2 (resolvePath cwd filename)
            ++ eng.semanticDiagnostics h2 (resolvePath cwd filename))) := by
  obtain ⟨info, he1, he2⟩ :=
    V1.addFile_stable env p.host (resolvePath cwd filename) text hread
  obtain ⟨info2, hq1, hq2, hq3⟩ :=
    V1.addFile_ok env p.host (resolvePath cwd filename) text hread
  exact ⟨(V1.Host.addFile env p.host (resolvePath cwd filename)).1, rfl,
    mem_mapKeys_of_mapGet _ _ _ hq2,
    V1.diagnose_eq env eng cwd p filename _ info he1,
    V1.diagnose_eq env eng cwd
      ⟨(V1.Host.addFile env p.host (resolvePath cwd filename)).1⟩ filename _ info he2⟩

theorem diagnose_ordering_witness :
    ∃ h2 : V1.Host,
      h2 = (V1.Host.addFile envA projV1A.host (resolvePath "/" "/p/a.ts")).1 ∧
      resolvePath "/" "/p/a.ts" ∈ V1.Host.getScriptFileNames h2 ∧
      V1.Project.diagnose envA engA "/" projV1A "/p/a.ts"
        = (⟨h2⟩, Except.ok (engA.syntacticDiagnostics h2 (resolvePath "/" "/p/a.ts")
            ++ engA.semanticDiagnostics h2 (resolvePath "/" "/p/a.ts"))) ∧
      V1.Project.diagnose envA engA "/" ⟨h2⟩ "/p/a.ts"
        = (⟨h2⟩, Except.ok (engA.syntacticDiagnostics h2 (resolvePath "/" "/p/a.ts")
            ++ engA.semanticDiagnostics h2 (resolvePath "/" "/p/a.ts"))) :=
  diagnose_ordering envA engA "/" projV1A "/p/a.ts" "const x = 0;" (by decide)

/-- C4, counterexample: the aggregate project version is not
order-independent.  Tracking the two concrete files a.ts and b.ts of the
concrete world in the two possible orders yields different aggregate
versions, refuting the claim that any two tracking orders of the same
files with the same contents give equal values. -/
theorem projectVersion_order_counterexample :
    ¬ ((V1.Host.addFile envA
          (V1.Host.addFile envA hostA "/p/a.ts").1 "/p/b.ts").1.getProjectVersion
        = (V1.Host.addFile envA
          (V1.Host.addFile envA hostA "/p/b.ts").1 "/p/a.ts").1.getProjectVersion) := by
  decide

/-- C4, amended: the aggregate project version is an insertion-order hash
chain — tracking a file whose version is new for its path replaces the
aggregate with the hash of the old aggregate concatenated with the file
version, so the aggregate does change whenever any tracked file version
changes, but it depends on the order of the updates, not only on the
multiset of (path, version) pairs. -/
theorem projectVersion_chain (env : Env) (h : V1.Host) (fileName text : String)
    (hread : env.contents fileName = some text)
    (hchanged : ∀ c, mapGet h.files fileName = some c → c.version ≠ md5 text) :
    (V1.Host.addFile env h fileName).1.getProjectVersion
        = md5 (h.getProjectVersion ++ md5 text) ∧
    (V1.Host.addFile env h fileName).1.getProjectVersion
        ≠ h.getProjectVersion := by
  have hfresh : V1.Host.addFile env h fileName
      = V1.Host.addFresh h fileName text (md5 text) := by
    cases hcur : mapGet h.files fileName with
    | none => exact V1.addFile_new env h fileName text hread hcur
    | some c => exact V1.addFile_changed env h fileName text c hread hcur (hchanged c hcur)
  rw [hfresh, V1.addFresh_eq]
  exact ⟨rfl, md5_append_ne _ _⟩

theorem projectVersion_chain_witness :
    (V1.Host.addFile envA hostA "/p/a.ts").1.getProjectVersion
        = md5 (hostA.getProjectVersion ++ md5 "const x = 0;") ∧
    (V1.Host.addFile envA hostA "/p/a.ts").1.getProjectVersion
        ≠ hostA.getProjectVersion :=
  projectVersion_chain envA hostA "/p/a.ts" "const x = 0;" (by decide)
    (fun c hc => by simp [hostA, mapGet] at hc)

/-- C7: Implicit track-on-read.  For a path never tracked in the host,
getScriptVersion and getScriptSnapshot do not fail: they lazily run
addFile, register the file, and answer with its version and snapshot;
afterwards the path is listed by getScriptFileNames. -/
theorem implicit_track_on_read (env : Env) (h : V1.Host) (fileName text : String)
    (hread : env.contents fileName = some text)
    (hnew : mapGet h.files fileName = none) :
    ∃ h2 info,
      V1.Host.addFile env h fileName = (h2, Except.ok info) ∧
      V1.Host.getScriptVersion env h fileName = (h2, Except.ok info.version) ∧
      V1.Host.getScriptSnapshot env h fileName = (h2, Except.ok info.snapshot) ∧
      mapGet h2.files fileName = some info ∧
      fileName ∈ V1.Host.getScriptFileNames h2 := by
  have hadd := V1.addFile_new env h fileName text hread hnew
  rw [V1.addFresh_eq] at hadd
  refine ⟨_, _, hadd, ?_, ?_, mapGet_mapSet_self _ _ _, mem_mapKeys_mapSet _ _ _⟩
  · unfold V1.Host.getScriptVersion
    rw [hnew, hadd]
  · unfold V1.Host.getScriptSnapshot
    rw [hnew, hadd]

theorem implicit_track_on_read_witness :
    ∃ h2 info,
      V1.Host.addFile envA hostA "/p/b.ts" = (h2, Except.ok info) ∧
      V1.Host.getScriptVersion envA hostA "/p/b.ts" = (h2, Except.ok info.version) ∧
      V1.Host.getScriptSnapshot envA hostA "/p/b.ts" = (h2, Except.ok info.snapshot) ∧
      mapGet h2.files "/p/b.ts" = some info ∧
      "/p/b.ts" ∈ V1.Host.getScriptFileNames h2 :=
  implicit_track_on_read envA hostA "/p/b.ts" "let y = 1;" (by decide) (by decide)

/-- C8: FileUnreadable atomicity.  A path that cannot be read makes
addFile fail with the FileUnreadable error while returning the host state
completely unchanged — no tracked file and no aggregate version is
touched — and the same failure surfaces unchanged from diagnose and
compile, which also leave the Project state untouched. -/
theorem file_unreadable_atomic (env : Env) (eng : Engine V1.Host) (cwd : String)
    (h : V1.Host) (p : V1.Project) (fileName fn2 : String)
    (hread : env.contents fileName = none)
    (hread2 : env.contents (resolvePath cwd fn2) = none) :
    V1.Host.addFile env h fileName
        = (h, Except.error (Err.fileUnreadable fileName)) ∧
    V1.Project.diagnose env eng cwd p fn2
        = (p, Except.error (Err.fileUnreadable (resolvePath cwd fn2))) ∧
    V1.Project.compile env eng cwd p fn2
        = (p, Except.error (Err.fileUnreadable (resolvePath cwd fn2))) :=
  ⟨V1.addFile_err env h fileName hread,
   V1.diagnose_err env eng cwd p fn2 _ (V1.addFile_err env p.host _ hread2),
   V1.compile_err env eng cwd p fn2 _ (V1.addFile_err env p.host _ hread2)⟩

theorem file_unreadable_atomic_witness :
    V1.Host.addFile envA hostA "/p/missing.ts"
        = (hostA, Except.error (Err.fileUnreadable "/p/missing.ts")) ∧
    V1.Project.diagnose envA engA "/" projV1A "/p/missing.ts"
        = (projV1A, Except.error (Err.fileUnreadable (resolvePath "/" "/p/missing.ts"))) ∧
    V1.Project.compile envA engA "/" projV1A "/p/missing.ts"
        = (projV1A, Except.error (Err.fileUnreadable (resolvePath "/" "/p/missing.ts"))) :=
  file_unreadable_atomic envA engA "/" hostA projV1A "/p/missing.ts" "/p/missing.ts"
    (by decide) (by decide)

/-- C9: Snapshot-version consistency.  Starting from any host satisfying
the invariant, any sequence of track and untrack operations preserves it:
every entry of the tracked-file map carries as its version exactly the
hash of the text captured in its snapshot, because entries are only ever
inserted whole, replaced whole, or deleted. -/
theorem tracked_entries_consistent (env : Env) (h : V1.Host) (ops : List HostOp)
    (hwf : V1.Host.WF h) : V1.Host.WF (V1.Host.runOps env h ops) := by
  induction ops generalizing h with
  | nil => exact hwf
  | cons op rest ih =>
    cases op with
    | track q => exact ih _ (V1.wf_addFile env h q hwf)
    | untrack q => exact ih _ (V1.wf_removeFile h q hwf)

theorem tracked_entries_consistent_witness :
    V1.Host.WF (V1.Host.runOps envA hostA
      [HostOp.track "/p/a.ts", HostOp.track "/p/b.ts", HostOp.untrack "/p/a.ts",
       HostOp.track "/p/missing.ts", HostOp.track "/p/b.ts",
       HostOp.track "/p/c.txt"]) :=
  tracked_entries_consistent envA hostA _ (by intro e he; simp [hostA] at he)

/-- C10: Script-kind classification.  The extension switch of addFile has
no break statements, so every matched case falls through to the final
assignment: a newly tracked file whose extension is any of .js, .jsx, .ts
or .tsx is recorded with kind TSX, and a file with any other extension
keeps kind Unknown. -/
theorem script_kind_fallthrough (env : Env) (h : V1.Host) (fileName text : String)
    (hread : env.contents fileName = some text)
    (hnew : mapGet h.files fileName = none) :
    ∃ h2 info,
      V1.Host.addFile env h fileName = (h2, Except.ok info) ∧
      info.kind
        = (if extname fileName == ".js" || extname fileName == ".jsx"
              || extname fileName == ".ts" || extname fileName == ".tsx" then
             ScriptKind.TSX
           else ScriptKind.Unknown) := by
  rw [V1.addFile_new env h fileName text hread hnew, V1.addFresh_eq]
  exact ⟨_, _, rfl, scriptKindOf_eq fileName⟩

theorem script_kind_fallthrough_witness :
    (∃ h2 info,
      V1.Host.addFile envA hostA "/p/a.ts" = (h2, Except.ok info) ∧
      info.kind
        = (if extname "/p/a.ts" == ".js" || extname "/p/a.ts" == ".jsx"
              || extname "/p/a.ts" == ".ts" || extname "/p/a.ts" == ".tsx" then
             ScriptKind.TSX
           else ScriptKind.Unknown)) ∧
    (∃ h2 info,
      V1.Host.addFile envA hostA "/p/c.txt" = (h2, Except.ok info) ∧
      info.kind
        = (if extname "/p/c.txt" == ".js" || extname "/p/c.txt" == ".jsx"
              || extname "/p/c.txt" == ".ts" || extname "/p/c.txt" == ".tsx" then
             ScriptKind.TSX
           else ScriptKind.Unknown)) :=
  ⟨script_kind_fallthrough envA hostA "/p/a.ts" "const x = 0;" (by decide) (by decide),
   script_kind_fallthrough envA hostA "/p/c.txt" "plain text" (by decide) (by decide)⟩

/-- C2: Routing consistency.  When two files resolve to the same
configuration root and a first projectFor call for one of them has
succeeded, a projectFor call for the other returns the identical Session
— same identity tag, same state — and changes nothing in the Workspace: a
Session is constructed and registered under the root only by the first
call. -/
theorem projectFor_routing_consistent (env : Env) (w w1 : Workspace)
    (a b root : String) (pa : V2.Project)
    (ha : getRoot env a = some root) (hb : getRoot env b = some root)
    (h1 : Workspace.projectFor env w a = (w1, Except.ok pa)) :
    Workspace.projectFor env w1 b = (w1, Except.ok pa) := by
  have hreg := projectFor_registered env w w1 a root pa ha h1
  simp [Workspace.projectFor, hb, hreg]

theorem projectFor_routing_consistent_witness :
    Workspace.projectFor envA wsA1 "/p/b.ts" = (wsA1, Except.ok projA) :=
  projectFor_routing_consistent envA w0 wsA1 "/p/a.ts" "/p/b.ts" "/p" projA
    (by decide) (by decide) (by decide)

/-- C5: NoConfiguration error handling.  For a file whose ancestor chain
holds no configuration marker, projectFor fails with the NoConfiguration
error and returns the Workspace unchanged, diagnose and compile surface
the same failure, and a call for any file under an already registered
root still succeeds with the registered Session. -/
theorem projectFor_no_configuration (env : Env) (eng : Engine V2.Host)
    (cwd : String) (w : Workspace) (a : String)
    (ha : getRoot env a = none) :
    Workspace.projectFor env w a = (w, Except.error (Err.noConfiguration a)) ∧
    Workspace.diagnose env eng cwd w a
        = (w, Except.error (Err.noConfiguration a)) ∧
    Workspace.compile env eng cwd w a
        = (w, Except.error (Err.noConfiguration a)) ∧
    ∀ b root p, getRoot env b = some root → mapGet w.projects root = some p →
      Workspace.projectFor env w b = (w, Except.ok p) := by
  have h1 : Workspace.projectFor env w a
      = (w, Except.error (Err.noConfiguration a)) := by
    simp [Workspace.projectFor, ha]
  refine ⟨h1, ?_, ?_, ?_⟩
  · simp [Workspace.diagnose, h1]
  · simp [Workspace.compile, h1]
  · intro b root p hb hp
    simp [Workspace.projectFor, hb, hp]

theorem projectFor_no_configuration_witness :
    Workspace.projectFor envA wsA1 "/q/z.ts"
        = (wsA1, Except.error (Err.noConfiguration "/q/z.ts")) ∧
    Workspace.diagnose envA eng2A "/" wsA1 "/q/z.ts"
        = (wsA1, Except.error (Err.noConfiguration "/q/z.ts")) ∧
    Workspace.projectFor envA wsA1 "/p/a.ts" = (wsA1, Except.ok projA) :=
  ⟨(projectFor_no_configuration envA eng2A "/" wsA1 "/q/z.ts" (by decide)).1,
   (projectFor_no_configuration envA eng2A "/" wsA1 "/q/z.ts" (by decide)).2.1,
   (projectFor_no_configuration envA eng2A "/" wsA1 "/q/z.ts" (by decide)).2.2.2
     "/p/a.ts" "/p" projA (by decide) (by decide)⟩

/-- C6: Failed-session atomicity.  When the root of a file is resolved
but Session construction fails (for example a configuration that does not
parse), the construction error propagates from projectFor and the
Workspace is returned unchanged, so the failed Session is not registered;
calls for files under previously registered roots still succeed with
their registered Sessions; and a retry against a fixed world constructs
and registers a fresh Session under the same root. -/
theorem projectFor_failed_construction (env : Env) (w : Workspace)
    (a root : String) (e : Err)
    (ha : getRoot env a = some root)
    (hmiss : mapGet w.projects root = none)
    (hfail : V2.Project.construct env w.nextId root = Except.error e) :
    Workspace.projectFor env w a = (w, Except.error e) ∧
    (∀ b root2 p, getRoot env b = some root2 → mapGet w.projects root2 = some p →
      Workspace.projectFor env w b = (w, Except.ok p)) ∧
    ∀ env2 p, getRoot env2 a = some root →
      V2.Project.construct env2 w.nextId root = Except.ok p →
      Workspace.projectFor env2 w a
        = ({ w with projects := mapSet w.projects root p, nextId := w.nextId + 1 },
           Except.ok p) := by
  refine ⟨?_, ?_, ?_⟩
  · simp [Workspace.projectFor, ha, hmiss, hfail]
  · intro b root2 p hb hp
    simp [Workspace.projectFor, hb, hp]
  · intro env2 p ha2 hok
    simp [Workspace.projectFor, ha2, hmiss, hok]

theorem projectFor_failed_construction_witness :
    Workspace.projectFor envA wsA1 "/m/z.ts"
        = (wsA1, Except.error (Err.malformedConfiguration "/m/tsconfig.json")) ∧
    Workspace.projectFor envA wsA1 "/p/a.ts" = (wsA1, Except.ok projA) ∧
    Workspace.projectFor envB wsA1 "/m/z.ts"
        = ({ wsA1 with projects := mapSet wsA1.projects "/m" projM, nextId := wsA1.nextId + 1 },
           Except.ok projM) :=
  ⟨(projectFor_failed_construction envA wsA1 "/m/z.ts" "/m"
      (Err.malformedConfiguration "/m/tsconfig.json")
      (by decide) (by decide) (by decide)).1,
   (projectFor_failed_construction envA wsA1 "/m/z.ts" "/m"
      (Err.malformedConfiguration "/m/tsconfig.json")
      (by decide) (by decide) (by decide)).2.1
     "/p/a.ts" "/p" projA (by decide) (by decide),
   (projectFor_failed_construction envA wsA1 "/m/z.ts" "/m"
      (Err.malformedConfiguration "/m/tsconfig.json")
      (by decide) (by decide) (by decide)).2.2
     envB projM (by decide) (by decide)⟩
